import Mathlib

/-
Verification of the text-extractor layer of the pliers repository
(pliers/extractors/text.py), as a shallow embedding in Lean 4.

Conventions of the embedding:
* Python strings are modelled as `List Char` where character-level
  operations (strip, split) matter, and as `String` where the text is
  only used as an opaque lookup key.
* A pandas `DataFrame` used as a lookup dictionary is modelled as a
  `DTable`: a list of column names plus an association list from row key
  to row, where each cell is `Option α` (`none` models a NaN / missing
  cell, `some a` a present value).
* A Python `dict` built by insertion is modelled by `pyToDict`, which
  reproduces dict semantics: a repeated key keeps its first position and
  takes the last value.
* Fallible code (a raised exception) is modelled with `Except String`.
* Floating-point feature values are modelled by an arbitrary value type
  `α`; the claims under study never compute with the values, they only
  move them around.
-/

set_option autoImplicit false

namespace Pliers

universe u

variable {α : Type u}

/-! ### Python string primitives -/

/-- Whitespace characters recognised by Python `str.strip` / `str.split`
(space, tab, newline, carriage return, vertical tab, form feed). -/
def isPySpace (c : Char) : Bool :=
  c == ' ' || c == '\t' || c == '\n' || c == '\r' ||
    c == Char.ofNat 11 || c == Char.ofNat 12

/-- Python `str.strip()`: drop leading and trailing whitespace. -/
def pyStrip (s : List Char) : List Char :=
  ((s.dropWhile isPySpace).reverse.dropWhile isPySpace).reverse

/-- Helper for `pySplit`; `cur` holds the reversed current token. -/
def pySplitAux : List Char → List Char → List (List Char)
  | cur, [] => if cur.isEmpty then [] else [cur.reverse]
  | cur, c :: cs =>
    if isPySpace c then
      if cur.isEmpty then pySplitAux [] cs else cur.reverse :: pySplitAux [] cs
    else
      pySplitAux (c :: cur) cs

/-- Python `str.split()` with no arguments: split on runs of whitespace,
producing no empty tokens. -/
def pySplit (s : List Char) : List (List Char) :=
  pySplitAux [] s

/-! ### Python dict built by insertion -/

/-- One Python dict assignment `d[k] = v` on a dict represented as an
ordered association list: an existing key keeps its position and is
updated, a new key is appended. -/
def pyDictInsert (l : List (String × α)) (k : String) (v : α) : List (String × α) :=
  if l.any (fun p => p.1 == k) then
    l.map (fun p => if p.1 == k then (k, v) else p)
  else
    l ++ [(k, v)]

/-- Building a Python dict from a sequence of key-value pairs
(`dict(pairs)`, or pandas `Series.to_dict()` over its index/values). -/
def pyToDict (l : List (String × α)) : List (String × α) :=
  l.foldl (fun acc p => pyDictInsert acc p.1 p.2) []

/-- The part of `ExtractorResult` the claims are about: the 2-D value
table (rows x features) and the ordered feature names.  Provenance
fields (stimulus, extractor) are carried next to it where needed. -/
structure ExtractorResult (α : Type u) where
  values : List (List α)
  features : List String
  deriving DecidableEq

/-! ### ComplexTextExtractor -/

/-- One element of a `ComplexTextStim`: a word with optional onset and
duration. -/
structure TextElement where
  text : String
  onset : Option ℚ
  duration : Option ℚ
  deriving DecidableEq

/-- Result of `ComplexTextExtractor._extract`: the word list, the single
feature name, and per-row onsets and durations. -/
structure CTResult where
  values : List String
  features : List String
  onsets : List (Option ℚ)
  durations : List (Option ℚ)
  deriving DecidableEq

/-- `ComplexTextExtractor._extract`.  The source builds
`props = [(e.text, e.onset, e.duration) for e in stim.elements]` and then
unpacks `zip(*props)` into three lists; on an empty element list `zip()`
yields nothing and the unpacking raises `ValueError`, modelled as
`Except.error`. -/
def complexTextExtract (elements : List TextElement) : Except String CTResult :=
  let props := elements.map (fun e => (e.text, e.onset, e.duration))
  match props with
  | [] => .error "ValueError: not enough values to unpack"
  | _ :: _ =>
    .ok ⟨props.map (fun p => p.1), ["word"],
         props.map (fun p => p.2.1), props.map (fun p => p.2.2)⟩

/-! ### LengthExtractor and NumUniqueWordsExtractor -/

/-- `LengthExtractor._extract`: `len(stim.text.strip())` as the single
feature `text_length`. -/
def lengthExtract (text : List Char) : ExtractorResult ℕ :=
  ⟨[[(pyStrip text).length]], ["text_length"]⟩

/-- `NumUniqueWordsExtractor._extract` in isolation.  `tokenizer` is the
optional user-supplied tokenizer; `nltkTokenize` is the module-level
name `nltk` that the function tests against None.  Note: the module
imports nltk unconditionally (`import nltk`), so in any loaded module
this binding is never None and the whitespace branch is dead code;
`numUniqueWordsRun` composes the import with the call and is the
behaviour reachable from an environment.  `len(set(tokens))` is the
cardinality of the set of tokens. -/
def numUniqueWordsExtract (tokenizer : Option (List Char → List (List Char)))
    (nltkTokenize : Option (List Char → List (List Char)))
    (text : List Char) : ExtractorResult ℕ :=
  let numWords :=
    match tokenizer with
    | none =>
      match nltkTokenize with
      | none => (pySplit text).toFinset.card
      | some wt => (wt text).toFinset.card
    | some tok => (tok text).toFinset.card
  ⟨[[numWords]], ["num_unique_words"]⟩

/-- `NumUniqueWordsExtractor` as reachable from an environment.  The
module does `import nltk` unconditionally, so when the environment has
no nltk package (`envNltk = none`) loading the module raises
ImportError and no extractor exists; when nltk is present, `_extract`
runs with the module-level name bound to the nltk tokenizer, never to
None. -/
def numUniqueWordsRun (envNltk : Option (List Char → List (List Char)))
    (tokenizer : Option (List Char → List (List Char)))
    (text : List Char) : Except String (ExtractorResult ℕ) :=
  match envNltk with
  | none => .error "ImportError: No module named nltk"
  | some wt => .ok (numUniqueWordsExtract tokenizer (some wt) text)

/-! ### Dictionary tables (pandas DataFrames used for lookup) -/

/-- A pandas `DataFrame` used as a lookup dictionary: ordered column
names and an association list from row key (the index) to row.  A cell
is `none` when the DataFrame holds NaN there. -/
structure DTable (α : Type u) where
  cols : List String
  rows : List (String × List (Option α))
  deriving DecidableEq

/-- `df.loc[key]`: the first row whose index equals `key`. -/
def DTable.lookup (t : DTable α) (k : String) : Option (List (Option α)) :=
  (t.rows.find? (fun r => r.1 == k)).map Prod.snd

/-- The table's index, as a list of keys. -/
def DTable.keys (t : DTable α) : List String :=
  t.rows.map Prod.fst

/-- Well-formedness of a DataFrame: every row has one cell per column.
pandas guarantees this for every DataFrame. -/
def DTable.WF (t : DTable α) : Prop :=
  ∀ r ∈ t.rows, r.2.length = t.cols.length

instance (t : DTable α) : Decidable t.WF := by
  unfold DTable.WF
  infer_instance

/-! ### DictionaryExtractor -/

/-- The configured state of a `DictionaryExtractor` after `__init__`:
the lookup table, the requested variables and the missing sentinel. -/
structure DictionaryExtractor (α : Type u) where
  data : DTable α
  vars : List String
  missing : α

/-- `df[variables]`: keep the named columns, in the order of
`variables`.  A cell is read through the position of its column name in
the source table. -/
def selectCols (v : List String) (t : DTable α) : DTable α :=
  ⟨v, t.rows.map (fun r =>
    (r.1, v.map (fun c =>
      match t.cols.indexOf? c with
      | some i => (r.2.get? i).getD none
      | none => none)))⟩

/-- `DictionaryExtractor.__init__` on an already-loaded DataFrame: when
`variables` is given the table is restricted to those columns, otherwise
`variables` becomes the table's column list. -/
def dictInit (dictionary : DTable α) (vars : Option (List String))
    (missing : α) : DictionaryExtractor α :=
  match vars with
  | none => ⟨dictionary, dictionary.cols, missing⟩
  | some vs => ⟨selectCols vs dictionary, vs, missing⟩

/-- `DictionaryExtractor._extract`.  A key absent from the index yields
`pd.Series(missing, variables)`; a present key yields
`data.loc[key].fillna(missing)`.  Either Series goes through
`.to_dict()` before its values and keys become the result row and the
feature names. -/
def DictionaryExtractor.extract (self : DictionaryExtractor α)
    (text : String) : ExtractorResult α :=
  let pairs :=
    match self.data.lookup text with
    | none => pyToDict (self.vars.map (fun c => (c, self.missing)))
    | some r =>
      pyToDict (self.data.cols.zip (r.map (fun c => Option.getD c self.missing)))
  ⟨[pairs.map Prod.snd], pairs.map Prod.fst⟩

/-! ### PredefinedDictionaryExtractor -/

/-- `d.index = d.index.str.lower()`: lowercase every row key. -/
def lowerKeys (t : DTable α) : DTable α :=
  ⟨t.cols, t.rows.map (fun r => (r.1.toLower, r.2))⟩

/-- `d.columns = ['%s_%s' % (name, c) for c in d.columns]`: rename every
column by putting the source name and an underscore in front of it. -/
def renameCols (name : String) (t : DTable α) : DTable α :=
  ⟨t.cols.map (fun c => name ++ "_" ++ c), t.rows⟩

/-- The per-source processing of `PredefinedDictionaryExtractor.__init__`
after a successful fetch: lowercase the index unless case-sensitive,
restrict to the requested columns when any are named, and rename the
columns with the source-name prefix. -/
def processSource (caseSensitive : Bool) (name : String) (v : List String)
    (d : DTable α) : DTable α :=
  let d := if caseSensitive then d else lowerKeys d
  let d := if v.isEmpty then d else selectCols v d
  renameCols name d

/-- `pd.concat(dicts, axis=1, join='outer')`: columns are concatenated
in source order; the index is the union of all indexes; a key absent
from one source contributes NaN cells for that source's columns.  Row
order in pandas is the index-union order; the claims are row-order
agnostic, so the model lists each key once, by first appearance.
`joinedRow` is the row the outer join assigns to one key: each source
contributes its row for that key, or one NaN per column when the key is
absent from that source. -/
def joinedRow (ts : List (DTable α)) (k : String) : List (Option α) :=
  ts.flatMap (fun t =>
    match t.lookup k with
    | some r => r
    | none => List.replicate t.cols.length none)

def concatOuter (ts : List (DTable α)) : DTable α :=
  ⟨ts.flatMap DTable.cols,
   ((ts.flatMap DTable.keys).dedup).map (fun k => (k, joinedRow ts k))⟩

/-- Modelled from the spec: `fetch_dictionary` (the dictionary source
boundary, which is not part of the excerpted sources) returns tabular
data indexed by key and raises `ResourceUnavailableError` on failure,
surfaced with the resource name; the error value is the name of the
resource that could not be obtained. -/
def FetchFn (α : Type u) : Type u :=
  String → Except String (DTable α)

/-- The fetch/process loop of `PredefinedDictionaryExtractor.__init__`:
each named source is fetched and processed in order; the first fetch
failure aborts the loop and propagates. -/
def fetchAll (fetch : FetchFn α) (caseSensitive : Bool) :
    List (String × List String) → Except String (List (DTable α))
  | [] => .ok []
  | kv :: rest =>
    match fetch kv.1 with
    | .error e => .error e
    | .ok d =>
      match fetchAll fetch caseSensitive rest with
      | .error e => .error e
      | .ok ds => .ok (processSource caseSensitive kv.1 kv.2 d :: ds)

/-- `PredefinedDictionaryExtractor.__init__` with `variables` already in
its source-to-columns mapping form: fetch and process every source,
outer-join them, and build the generic `DictionaryExtractor` over the
joined table (with `variables=None`, so the variables become the joined
table's columns). -/
def predefinedInit (fetch : FetchFn α) (missing : α) (caseSensitive : Bool)
    (variablesList : List (String × List String)) :
    Except String (DictionaryExtractor α) :=
  match fetchAll fetch caseSensitive variablesList with
  | .error e => .error e
  | .ok dicts => .ok (dictInit (concatOuter dicts) none missing)

/-- The table a successful fetch returned (junk on a failed fetch; only
used under a hypothesis that the fetch succeeded). -/
def fetched (fetch : FetchFn α) (k : String) : DTable α :=
  match fetch k with
  | .ok d => d
  | .error _ => ⟨[], []⟩

/-- The processed source tables a fully successful
`PredefinedDictionaryExtractor.__init__` joins, in source order. -/
def predefProcs (fetch : FetchFn α) (caseSensitive : Bool)
    (variablesList : List (String × List String)) : List (DTable α) :=
  variablesList.map (fun kv => processSource caseSensitive kv.1 kv.2 (fetched fetch kv.1))

/-- The combined lookup table a fully successful
`PredefinedDictionaryExtractor.__init__` builds. -/
def predefTable (fetch : FetchFn α) (caseSensitive : Bool)
    (variablesList : List (String × List String)) : DTable α :=
  concatOuter (predefProcs fetch caseSensitive variablesList)

/-- A concrete two-source fetch collaborator used to exercise the
predefined-dictionary construction on explicit data. -/
def exFetch : FetchFn ℤ := fun n =>
  if n = "affect" then .ok ⟨["V"], [("john", [some 3]), ("mary", [none])]⟩
  else if n = "freq" then .ok ⟨["F"], [("john", [some 7])]⟩
  else .error n

/-- The source specification matching `exFetch`: both sources, all
columns. -/
def exVars : List (String × List String) :=
  [("affect", []), ("freq", [])]

/-- A fetch collaborator whose only available source is `good`; any
other resource name fails with an error naming it. -/
def exFetchFail : FetchFn ℤ := fun n =>
  if n = "good" then .ok ⟨["c"], [("k", [some 1])]⟩
  else .error n

/-- A source specification containing one fetchable and one missing
source. -/
def exVarsFail : List (String × List String) :=
  [("good", []), ("missing_dict", [])]

/-! ### PartOfSpeechExtractor -/

/-- The key set of nltk's `help/tagsets/upenn_tagset.pickle`: the closed
Penn Treebank tag inventory (45 tags). -/
def upennTagset : List String :=
  ["CC", "CD", "DT", "EX", "FW", "IN", "JJ", "JJR", "JJS", "LS", "MD",
   "NN", "NNP", "NNPS", "NNS", "PDT", "POS", "PRP", "PRP$", "RB", "RBR",
   "RBS", "RP", "SYM", "TO", "UH", "VB", "VBD", "VBG", "VBN", "VBP",
   "VBZ", "WDT", "WP", "WP$", "WRB", "$", "''", "(", ")", ",", "--",
   ".", ":", "``"]

/-- The one-hot dict of `PartOfSpeechExtractor._extract` for one unit:
`pos_vector = dict.fromkeys(tagset, 0); pos_vector[tag] = 1`. -/
def posVector (tag : String) : List (String × ℕ) :=
  pyDictInsert (upennTagset.map (fun t => (t, 0))) tag 1

/-- `PartOfSpeechExtractor._extract` over a batch.  `tagger` models
`nltk.pos_tag`; the batch is the list of the units' texts.  When the
tagger returns a different number of tags than input words a
`PliersError` is raised (the spec's `TaggingMismatchError`); otherwise
one result per unit is built from its one-hot tag vector, paired with
the unit it belongs to. -/
def posExtract (tagger : List String → List (String × String))
    (stims : List String) : Except String (List (String × ExtractorResult ℕ)) :=
  let words := stims
  let pos := tagger words
  if words.length ≠ pos.length then
    .error "The number of words does not match the number of tagged words returned by the part-of-speech tagger."
  else
    .ok (stims.enum.map (fun p =>
      let tag := (((pos.get? p.1).getD ("", "")).2)
      let pv := posVector tag
      (p.2, ⟨[pv.map Prod.snd], pv.map Prod.fst⟩)))

/-! ### WordEmbeddingExtractor -/

/-- The part of a gensim `KeyedVectors` model the code uses: the
declared dimensionality and the vocabulary mapping. -/
structure WVModel (α : Type u) where
  vectorSize : ℕ
  vocab : List (String × List α)
  deriving DecidableEq

/-- `text in wvModel` / `wvModel[text]`: vocabulary lookup. -/
def WVModel.lookup (m : WVModel α) (k : String) : Option (List α) :=
  (m.vocab.find? (fun p => p.1 == k)).map Prod.snd

/-- `WordEmbeddingExtractor._extract`: an in-vocabulary text gets its
stored vector, an out-of-vocabulary text gets `np.zeros(num_dims)`;
feature names are `prefix0..prefix(num_dims-1)` either way. -/
def wordEmbeddingExtract (m : WVModel ℚ) (namePre : String)
    (text : String) : ExtractorResult ℚ :=
  let numDims := m.vectorSize
  let vec :=
    match m.lookup text with
    | some v => v
    | none => List.replicate numDims (0 : ℚ)
  ⟨[vec], (List.range numDims).map (fun i => namePre ++ toString i)⟩

/-! ### Claim theorems -/

/-! ### Theorems -/

theorem pyDictInsert_of_not_mem (l : List (String × α)) (k : String) (v : α)
    (h : k ∉ l.map Prod.fst) : pyDictInsert l k v = l ++ [(k, v)] := by
  unfold pyDictInsert
  have : l.any (fun p => p.1 == k) = false := by
    rw [List.any_eq_false]
    intro p hp
    simp only [beq_iff_eq]
    intro hk
    exact h (List.mem_map.2 ⟨p, hp, hk⟩)
  simp [this]

theorem pyToDict_go_of_nodup (l acc : List (String × α))
    (hd : ((acc ++ l).map Prod.fst).Nodup) :
    l.foldl (fun acc p => pyDictInsert acc p.1 p.2) acc = acc ++ l := by
  induction l generalizing acc with
  | nil => simp
  | cons p t ih =>
    have hmem : p.1 ∉ acc.map Prod.fst := by
      intro hmemp
      have := hd
      rw [List.map_append] at this
      rcases (List.nodup_append.1 this) with ⟨_, _, hdisj⟩
      exact hdisj hmemp (by simp)
    rw [List.foldl_cons, pyDictInsert_of_not_mem _ _ _ hmem]
    have hd' : (((acc ++ [(p.1, p.2)]) ++ t).map Prod.fst).Nodup := by
      simpa using hd
    calc (t.foldl (fun acc p => pyDictInsert acc p.1 p.2) (acc ++ [(p.1, p.2)]))
        = (acc ++ [(p.1, p.2)]) ++ t := ih (acc ++ [(p.1, p.2)]) hd'
      _ = acc ++ p :: t := by simp

/-- On a pair list with distinct keys, building the Python dict is the
identity: no entry is collapsed or reordered. -/
theorem pyToDict_of_nodup (l : List (String × α))
    (hd : (l.map Prod.fst).Nodup) : pyToDict l = l := by
  have := pyToDict_go_of_nodup (α := α) l [] (by simpa using hd)
  simpa [pyToDict] using this

/-! ### Result model -/

/-- C9: for every text stimulus, `LengthExtractor` returns a single-row,
single-feature result named `text_length` whose value is the character
count of the text after stripping leading and trailing whitespace; in
particular on `"  hello  "` it returns 5. -/
theorem lengthExtractor_strip_count :
    (∀ t : List Char, lengthExtract t =
      ⟨[[(pyStrip t).length]], ["text_length"]⟩) ∧
    lengthExtract "  hello  ".toList = ⟨[[5]], ["text_length"]⟩ :=
  ⟨fun _ => rfl, by decide⟩

/-- C8: the claimed degradation is unreachable in the code.  In an
environment without the nltk package, the unconditional `import nltk`
aborts the module load with ImportError, so extraction fails instead of
degrading (first conjunct, the failing scenario); in any environment
where the module does load, the no-tokenizer path always uses the nltk
tokenizer, never the whitespace split (second conjunct); the whitespace
branch of `_extract` would compute the claimed distinct
whitespace-token count, but only on the module-level binding None that
the unconditional import never produces (third conjunct: the dead
branch matches the spec's intended fallback). -/
theorem numUniqueWords_fallback_dead :
    (∀ (tokenizer : Option (List Char → List (List Char))) (text : List Char),
      numUniqueWordsRun none tokenizer text =
        .error "ImportError: No module named nltk") ∧
    (∀ (wt : List Char → List (List Char)) (text : List Char),
      numUniqueWordsRun (some wt) none text =
        .ok ⟨[[(wt text).toFinset.card]], ["num_unique_words"]⟩) ∧
    (∀ text : List Char, numUniqueWordsExtract none none text =
      ⟨[[(pySplit text).toFinset.card]], ["num_unique_words"]⟩) :=
  ⟨fun _ _ => rfl, fun _ _ => rfl, fun _ => rfl⟩

/-- C10: `ComplexTextExtractor` on a sequence stimulus with zero
elements does not return an empty result: the unpacking of the empty
zip fails, so extraction succeeds exactly on sequences with at least one
element. -/
theorem complexText_empty_fails :
    complexTextExtract [] = .error "ValueError: not enough values to unpack" ∧
    ∀ es : List TextElement, (complexTextExtract es).isOk = !es.isEmpty := by
  refine ⟨rfl, fun es => ?_⟩
  cases es <;> rfl

/-- C7 counterexample: on the empty sequence the claimed per-element
result (here: zero rows) is not produced; extraction fails instead. -/
theorem complexText_claim_cex :
    (complexTextExtract []).isOk = false :=
  rfl

/-- C7 (amended: sequences with at least one element): for every
non-empty sequence of text units, `ComplexTextExtractor` produces one
row per element in element order, carrying the element's literal text as
the single feature `word` together with its onset and duration. -/
theorem complexText_rows (es : List TextElement) (h : es ≠ []) :
    complexTextExtract es =
      .ok ⟨es.map TextElement.text, ["word"],
           es.map TextElement.onset, es.map TextElement.duration⟩ := by
  match es with
  | [] => exact absurd rfl h
  | e :: es' =>
    simp [complexTextExtract, Function.comp_def]

theorem complexText_rows_witness :
    ([⟨"hi", some 1, some 2⟩] : List TextElement) ≠ [] ∧
    complexTextExtract [⟨"hi", some 1, some 2⟩] =
      .ok ⟨["hi"], ["word"], [some 1], [some 2]⟩ :=
  ⟨by decide, complexText_rows _ (by decide)⟩

/-- C4: an in-vocabulary text gets exactly its stored vector, an
out-of-vocabulary text gets the all-zero vector of the model's declared
dimensionality (and no error), and the result carries exactly that many
feature names in both cases. -/
theorem wordEmbedding_lookup (m : WVModel ℚ) (pre : String) (t : String) :
    (∀ v, m.lookup t = some v →
      (wordEmbeddingExtract m pre t).values = [v]) ∧
    (m.lookup t = none →
      (wordEmbeddingExtract m pre t).values =
        [List.replicate m.vectorSize (0 : ℚ)]) ∧
    (wordEmbeddingExtract m pre t).features.length = m.vectorSize := by
  refine ⟨fun v hv => ?_, fun hn => ?_, ?_⟩
  · simp [wordEmbeddingExtract, hv]
  · simp [wordEmbeddingExtract, hn]
  · simp [wordEmbeddingExtract]

theorem wordEmbedding_lookup_witness :
    (WVModel.lookup ⟨2, [("hi", [1, 2])]⟩ "hi" = some [(1 : ℚ), 2]) ∧
    (wordEmbeddingExtract ⟨2, [("hi", [1, 2])]⟩ "embedding_dim" "hi").values =
      [[(1 : ℚ), 2]] ∧
    (WVModel.lookup (⟨2, [("hi", [1, 2])]⟩ : WVModel ℚ) "yo" = none) ∧
    (wordEmbeddingExtract ⟨2, [("hi", [1, 2])]⟩ "embedding_dim" "yo").values =
      [List.replicate 2 (0 : ℚ)] ∧
    (wordEmbeddingExtract ⟨2, [("hi", [1, 2])]⟩ "embedding_dim" "yo").features.length = 2 :=
  ⟨by decide,
   (wordEmbedding_lookup ⟨2, [("hi", [1, 2])]⟩ "embedding_dim" "hi").1 _ (by decide),
   by decide,
   (wordEmbedding_lookup ⟨2, [("hi", [1, 2])]⟩ "embedding_dim" "yo").2.1 (by decide),
   (wordEmbedding_lookup ⟨2, [("hi", [1, 2])]⟩ "embedding_dim" "yo").2.2⟩

theorem DTable.lookup_mem {t : DTable α} {k : String} {r : List (Option α)}
    (h : t.lookup k = some r) : (k, r) ∈ t.rows := by
  unfold DTable.lookup at h
  rcases Option.map_eq_some'.1 h with ⟨e, he, hr⟩
  have hk : e.1 = k := by
    have := List.find?_some he
    simpa using this
  have := List.mem_of_find?_eq_some he
  rw [← hk, ← hr]
  simpa using this

theorem DTable.lookup_length {t : DTable α} (hwf : t.WF) {k : String}
    {r : List (Option α)} (h : t.lookup k = some r) :
    r.length = t.cols.length :=
  hwf (k, r) (DTable.lookup_mem h)

theorem dictExtract_hit (tbl : DTable α) (miss : α) (t : String)
    (r : List (Option α)) (hn : tbl.cols.Nodup) (hwf : tbl.WF)
    (hr : tbl.lookup t = some r) :
    (dictInit tbl none miss).extract t =
      ⟨[r.map (fun c => Option.getD c miss)], tbl.cols⟩ := by
  have hlen : (r.map (fun c => Option.getD c miss)).length = tbl.cols.length := by
    simpa using DTable.lookup_length hwf hr
  have hfst : (tbl.cols.zip (r.map (fun c => Option.getD c miss))).map Prod.fst
      = tbl.cols :=
    List.map_fst_zip _ _ (le_of_eq hlen.symm)
  have hsnd : (tbl.cols.zip (r.map (fun c => Option.getD c miss))).map Prod.snd
      = r.map (fun c => Option.getD c miss) :=
    List.map_snd_zip _ _ (le_of_eq hlen)
  have hid : pyToDict (tbl.cols.zip (r.map (fun c => Option.getD c miss)))
      = tbl.cols.zip (r.map (fun c => Option.getD c miss)) :=
    pyToDict_of_nodup _ (by rw [hfst]; exact hn)
  simp only [DictionaryExtractor.extract, dictInit, hr, hid]
  rw [hsnd, hfst]

theorem dictExtract_miss (tbl : DTable α) (miss : α) (t : String)
    (hn : tbl.cols.Nodup) (hmiss : tbl.lookup t = none) :
    (dictInit tbl none miss).extract t =
      ⟨[tbl.cols.map (fun _ => miss)], tbl.cols⟩ := by
  have hfst : (tbl.cols.map (fun c => (c, miss))).map Prod.fst = tbl.cols := by
    simp [List.map_map, Function.comp_def]
  have hid : pyToDict (tbl.cols.map (fun c => (c, miss)))
      = tbl.cols.map (fun c => (c, miss)) :=
    pyToDict_of_nodup _ (by rw [hfst]; exact hn)
  simp only [DictionaryExtractor.extract, dictInit, hmiss, hid]
  simp [List.map_map, Function.comp_def]

/-- C1: a `DictionaryExtractor` over a lookup table returns, for a key
present in the table, one row equal to the table's row with each
individually missing cell replaced by the configured sentinel, and for
an absent key one row in which every requested variable equals the
sentinel; it never fails. -/
theorem dictionaryExtractor_lookup (tbl : DTable α) (miss : α) (t : String)
    (hn : tbl.cols.Nodup) (hwf : tbl.WF) :
    (∀ r, tbl.lookup t = some r →
      (dictInit tbl none miss).extract t =
        ⟨[r.map (fun c => Option.getD c miss)], tbl.cols⟩) ∧
    (tbl.lookup t = none →
      (dictInit tbl none miss).extract t =
        ⟨[tbl.cols.map (fun _ => miss)], tbl.cols⟩) :=
  ⟨fun r hr => dictExtract_hit tbl miss t r hn hwf hr,
   fun hmiss => dictExtract_miss tbl miss t hn hmiss⟩

theorem dictionaryExtractor_lookup_witness :
    (DTable.cols (α := ℤ) ⟨["v1", "v2"], [("dog", [some 3, none])]⟩).Nodup ∧
    (DTable.WF (α := ℤ) ⟨["v1", "v2"], [("dog", [some 3, none])]⟩) ∧
    DTable.lookup (α := ℤ) ⟨["v1", "v2"], [("dog", [some 3, none])]⟩ "dog"
      = some [some 3, none] ∧
    (dictInit (α := ℤ) ⟨["v1", "v2"], [("dog", [some 3, none])]⟩ none 9).extract "dog"
      = ⟨[[3, 9]], ["v1", "v2"]⟩ ∧
    DTable.lookup (α := ℤ) ⟨["v1", "v2"], [("dog", [some 3, none])]⟩ "cat" = none ∧
    (dictInit (α := ℤ) ⟨["v1", "v2"], [("dog", [some 3, none])]⟩ none 9).extract "cat"
      = ⟨[[9, 9]], ["v1", "v2"]⟩ := by
  refine ⟨by decide, by decide, by decide, ?_, by decide, ?_⟩
  · exact (dictionaryExtractor_lookup ⟨["v1", "v2"], [("dog", [some 3, none])]⟩
      9 "dog" (by decide) (by decide)).1 [some 3, none] (by decide)
  · exact (dictionaryExtractor_lookup ⟨["v1", "v2"], [("dog", [some 3, none])]⟩
      9 "cat" (by decide) (by decide)).2 (by decide)

/-- C3: whenever the tagger returns a number of tags different from the
number of input units, `PartOfSpeechExtractor` raises the mismatch error
(the spec's `TaggingMismatchError`) and produces no results at all. -/
theorem posExtractor_mismatch (tagger : List String → List (String × String))
    (stims : List String) (h : (tagger stims).length ≠ stims.length) :
    posExtract tagger stims =
      .error "The number of words does not match the number of tagged words returned by the part-of-speech tagger." := by
  unfold posExtract
  simp only [if_pos (Ne.symm h)]

theorem posExtractor_mismatch_witness :
    ((fun _ : List String => ([] : List (String × String))) ["hi"]).length ≠
      (["hi"] : List String).length ∧
    posExtract (fun _ => []) ["hi"] =
      .error "The number of words does not match the number of tagged words returned by the part-of-speech tagger." :=
  ⟨by decide, posExtractor_mismatch _ _ (by decide)⟩

theorem upennTagset_nodup : upennTagset.Nodup := by
  decide

theorem posVector_eq {tag : String} (h : tag ∈ upennTagset) :
    posVector tag = upennTagset.map (fun t => (t, if t = tag then 1 else 0)) := by
  unfold posVector pyDictInsert
  have hany : (upennTagset.map (fun t => (t, 0))).any (fun p => p.1 == tag) = true :=
    List.any_eq_true.2 ⟨(tag, 0), List.mem_map.2 ⟨tag, h, rfl⟩, by simp⟩
  rw [if_pos hany, List.map_map]
  apply List.map_congr_left
  intro t _
  by_cases ht : t = tag
  · simp [Function.comp_def, ht]
  · simp [Function.comp_def, ht]

theorem sum_ite_eq_zero {l : List String} {tag : String} (hm : tag ∉ l) :
    (l.map (fun t => if t = tag then (1 : ℕ) else 0)).sum = 0 := by
  induction l with
  | nil => rfl
  | cons a l ih =>
    have ha : a ≠ tag := fun h => hm (h ▸ List.mem_cons_self a l)
    have hm' : tag ∉ l := fun h => hm (List.mem_cons_of_mem a h)
    simp [ha, ih hm']

theorem sum_ite_eq_one {l : List String} {tag : String} (hn : l.Nodup)
    (hm : tag ∈ l) :
    (l.map (fun t => if t = tag then (1 : ℕ) else 0)).sum = 1 := by
  induction l with
  | nil => cases hm
  | cons a l ih =>
    rcases List.mem_cons.1 hm with h | h
    · have : tag ∉ l := by
        rw [← h] at hn
        exact (List.nodup_cons.1 hn).1
      simp [h.symm, sum_ite_eq_zero this]
    · have ha : a ≠ tag := by
        rintro rfl
        exact (List.nodup_cons.1 hn).1 h
      simp [ha, ih (List.nodup_cons.1 hn).2 h]

theorem count_ite_eq_zero {l : List String} {tag : String} (hm : tag ∉ l) :
    (l.map (fun t => if t = tag then (1 : ℕ) else 0)).count 1 = 0 := by
  induction l with
  | nil => rfl
  | cons a l ih =>
    have ha : a ≠ tag := fun h => hm (h ▸ List.mem_cons_self a l)
    have hm' : tag ∉ l := fun h => hm (List.mem_cons_of_mem a h)
    simp [List.count_cons, ha, ih hm']

theorem count_ite_eq_one {l : List String} {tag : String} (hn : l.Nodup)
    (hm : tag ∈ l) :
    (l.map (fun t => if t = tag then (1 : ℕ) else 0)).count 1 = 1 := by
  induction l with
  | nil => cases hm
  | cons a l ih =>
    rcases List.mem_cons.1 hm with h | h
    · have : tag ∉ l := by
        rw [← h] at hn
        exact (List.nodup_cons.1 hn).1
      simp [h.symm, List.count_cons, count_ite_eq_zero this]
    · have ha : a ≠ tag := by
        rintro rfl
        exact (List.nodup_cons.1 hn).1 h
      simp [List.count_cons, ha, ih (List.nodup_cons.1 hn).2 h]

/-- C2: on a batch of n single-word units for which the tagger returns n
tags (from the closed Penn inventory), `PartOfSpeechExtractor` returns
exactly n results in input order, and each result is a single row that
is a one-hot vector over the full tag inventory: every entry 0 or 1,
summing to exactly 1, with length the size of the inventory. -/
theorem posExtractor_one_hot (tagger : List String → List (String × String))
    (stims : List String)
    (hlen : (tagger stims).length = stims.length)
    (htags : ∀ p ∈ tagger stims, p.2 ∈ upennTagset) :
    ∃ rs, posExtract tagger stims = .ok rs ∧
      rs.length = stims.length ∧
      rs.map Prod.fst = stims ∧
      ∀ r ∈ rs, ∃ row,
        r.2 = ⟨[row], upennTagset⟩ ∧
        row.length = upennTagset.length ∧
        row.sum = 1 ∧
        (∀ x ∈ row, x = 0 ∨ x = 1) ∧
        row.count 1 = 1 := by
  have heq : posExtract tagger stims = .ok (stims.enum.map (fun p =>
      (p.2, (⟨[(posVector (((tagger stims).get? p.1).getD ("", "")).2).map Prod.snd],
        (posVector (((tagger stims).get? p.1).getD ("", "")).2).map Prod.fst⟩ :
          ExtractorResult ℕ)))) := by
    unfold posExtract
    rw [if_neg (fun hne => hne hlen.symm)]
  refine ⟨_, heq, ?_, ?_, ?_⟩
  · simp
  · simp only [List.map_map]
    have : (Prod.fst ∘ fun p : ℕ × String =>
        (p.2, (⟨[(posVector (((tagger stims).get? p.1).getD ("", "")).2).map Prod.snd],
          (posVector (((tagger stims).get? p.1).getD ("", "")).2).map Prod.fst⟩ :
            ExtractorResult ℕ))) = Prod.snd := rfl
    rw [this, List.enum_map_snd]
  · intro r hr
    rcases List.mem_map.1 hr with ⟨p, hp, rfl⟩
    have hget : stims[p.1]? = some p.2 := List.mem_enum_iff_getElem?.1 hp
    have hlt : p.1 < (tagger stims).length := by
      rw [hlen]
      exact (List.getElem?_eq_some.1 hget).1
    set q := (tagger stims).get ⟨p.1, hlt⟩ with hqdef
    have hq : (tagger stims).get? p.1 = some q := List.get?_eq_get hlt
    have hqmem : q ∈ tagger stims := List.get?_mem hq
    have htag : q.2 ∈ upennTagset := htags q hqmem
    refine ⟨upennTagset.map (fun t => if t = q.2 then 1 else 0), ?_, ?_, ?_, ?_, ?_⟩
    · simp only [hq, Option.getD_some]
      rw [posVector_eq htag]
      simp [List.map_map, Function.comp_def]
    · simp
    · exact sum_ite_eq_one upennTagset_nodup htag
    · intro x hx
      rcases List.mem_map.1 hx with ⟨t, _, rfl⟩
      by_cases ht : t = q.2 <;> simp [ht]
    · exact count_ite_eq_one upennTagset_nodup htag

theorem posExtractor_one_hot_witness :
    ((fun _ : List String => [("dog", "NN")]) ["dog"]).length =
      (["dog"] : List String).length ∧
    (∀ p ∈ (fun _ : List String => [("dog", "NN")]) ["dog"], p.2 ∈ upennTagset) ∧
    (∃ rs, posExtract (fun _ => [("dog", "NN")]) ["dog"] = .ok rs ∧
      rs.length = (["dog"] : List String).length ∧
      rs.map Prod.fst = ["dog"] ∧
      ∀ r ∈ rs, ∃ row,
        r.2 = ⟨[row], upennTagset⟩ ∧
        row.length = upennTagset.length ∧
        row.sum = 1 ∧
        (∀ x ∈ row, x = 0 ∨ x = 1) ∧
        row.count 1 = 1) :=
  ⟨by decide, by decide,
   posExtractor_one_hot (fun _ => [("dog", "NN")]) ["dog"] (by decide) (by decide)⟩

theorem find?_map_pair {β : Type u} (ks : List String) (f : String → β) (k : String) :
    ((ks.map (fun x => (x, f x))).find? (fun r => r.1 == k))
      = (ks.find? (fun x => x == k)).map (fun x => (x, f x)) := by
  induction ks with
  | nil => rfl
  | cons a t ih =>
    simp only [List.map_cons, List.find?_cons]
    cases h : (a == k) <;> simp [h, ih]

theorem find?_beq_of_mem {k : String} {ks : List String} (h : k ∈ ks) :
    ks.find? (fun x => x == k) = some k := by
  induction ks with
  | nil => cases h
  | cons a t ih =>
    simp only [List.find?_cons]
    cases ha : (a == k) with
    | true =>
      simp only [ha]
      exact congrArg some (eq_of_beq ha)
    | false =>
      simp only [ha]
      rcases List.mem_cons.1 h with h' | h'
      · subst h'
        simp at ha
      · exact ih h'

theorem find?_beq_of_not_mem {k : String} {ks : List String} (h : k ∉ ks) :
    ks.find? (fun x => x == k) = none := by
  rw [List.find?_eq_none]
  intro x hx
  simp only [beq_iff_eq]
  rintro rfl
  exact h hx

theorem concatOuter_lookup_of_mem (ts : List (DTable α)) (k : String)
    (h : k ∈ ts.flatMap DTable.keys) :
    (concatOuter ts).lookup k = some (joinedRow ts k) := by
  unfold concatOuter DTable.lookup
  rw [find?_map_pair, find?_beq_of_mem (List.mem_dedup.2 h)]
  rfl

theorem concatOuter_lookup_of_not_mem (ts : List (DTable α)) (k : String)
    (h : k ∉ ts.flatMap DTable.keys) :
    (concatOuter ts).lookup k = none := by
  unfold concatOuter DTable.lookup
  rw [find?_map_pair, find?_beq_of_not_mem (fun hk => h (List.mem_dedup.1 hk))]
  rfl

theorem concatOuter_lookup_isSome (ts : List (DTable α)) (k : String) :
    ((concatOuter ts).lookup k).isSome ↔ ∃ t ∈ ts, k ∈ t.keys := by
  by_cases h : k ∈ ts.flatMap DTable.keys
  · rw [concatOuter_lookup_of_mem ts k h]
    simpa using List.mem_flatMap.1 h
  · rw [concatOuter_lookup_of_not_mem ts k h]
    simp only [Option.isSome_none, Bool.false_eq_true, false_iff]
    rintro ⟨t, ht, hk⟩
    exact h (List.mem_flatMap.2 ⟨t, ht, hk⟩)

theorem selectCols_wf (v : List String) (t : DTable α) : (selectCols v t).WF := by
  intro r hr
  unfold selectCols at hr
  rcases List.mem_map.1 hr with ⟨r₀, _, rfl⟩
  simp [selectCols]

theorem lowerKeys_wf {t : DTable α} (h : t.WF) : (lowerKeys t).WF := by
  intro r hr
  unfold lowerKeys at hr
  rcases List.mem_map.1 hr with ⟨r₀, hr₀, rfl⟩
  simpa [lowerKeys] using h r₀ hr₀

theorem renameCols_wf {t : DTable α} (n : String) (h : t.WF) :
    (renameCols n t).WF := by
  intro r hr
  unfold renameCols at hr
  simpa [renameCols] using h r hr

theorem processSource_wf {t : DTable α} (cs : Bool) (n : String)
    (v : List String) (h : t.WF) : (processSource cs n v t).WF := by
  unfold processSource
  cases cs <;> cases hv : v.isEmpty <;>
    simp only [hv, if_true, if_false, Bool.false_eq_true, ite_true, ite_false] <;>
    exact renameCols_wf n (by first | exact selectCols_wf _ _ | exact lowerKeys_wf h | exact h)

theorem joinedRow_length (ts : List (DTable α)) (k : String)
    (h : ∀ t ∈ ts, t.WF) :
    (joinedRow ts k).length = (ts.flatMap DTable.cols).length := by
  induction ts with
  | nil => rfl
  | cons t ts ih =>
    unfold joinedRow
    rw [List.flatMap_cons, List.flatMap_cons, List.length_append, List.length_append]
    congr 1
    · cases hl : t.lookup k with
      | some r => simpa [hl] using DTable.lookup_length (h t (by simp)) hl
      | none => simp [hl]
    · exact ih (fun t' ht' => h t' (List.mem_cons_of_mem _ ht'))

theorem concatOuter_wf (ts : List (DTable α)) (h : ∀ t ∈ ts, t.WF) :
    (concatOuter ts).WF := by
  intro r hr
  unfold concatOuter at hr
  rcases List.mem_map.1 hr with ⟨k, _, rfl⟩
  simpa [concatOuter] using joinedRow_length ts k h

theorem joinedRow_map_getD (ts : List (DTable α)) (k : String) (miss : α) :
    (joinedRow ts k).map (fun c => Option.getD c miss) =
      ts.flatMap (fun t =>
        match t.lookup k with
        | some r => r.map (fun c => Option.getD c miss)
        | none => List.replicate t.cols.length miss) := by
  induction ts with
  | nil => rfl
  | cons t ts ih =>
    unfold joinedRow at ih ⊢
    rw [List.flatMap_cons, List.flatMap_cons, List.map_append, ih]
    congr 1
    cases hl : t.lookup k <;> simp [hl, List.map_replicate]

theorem selectCols_keys (v : List String) (t : DTable α) :
    (selectCols v t).keys = t.keys := by
  unfold selectCols DTable.keys
  rw [List.map_map]
  rfl

theorem lowerKeys_keys (t : DTable α) :
    (lowerKeys t).keys = t.keys.map String.toLower := by
  unfold lowerKeys DTable.keys
  rw [List.map_map, List.map_map]
  rfl

theorem renameCols_keys (n : String) (t : DTable α) :
    (renameCols n t).keys = t.keys :=
  rfl

theorem processSource_keys_lower (n : String) (v : List String) (t : DTable α) :
    (processSource false n v t).keys = t.keys.map String.toLower := by
  unfold processSource
  cases hv : v.isEmpty <;>
    simp [hv, renameCols_keys, selectCols_keys, lowerKeys_keys]

theorem processSource_cols_prefixed (cs : Bool) (n : String) (v : List String)
    (t : DTable α) (c : String) (hc : c ∈ (processSource cs n v t).cols) :
    ∃ c₀, c = n ++ "_" ++ c₀ := by
  unfold processSource renameCols at hc
  rcases List.mem_map.1 hc with ⟨c₀, _, rfl⟩
  exact ⟨c₀, rfl⟩

theorem fetchAll_ok (fetch : FetchFn α) (cs : Bool)
    (vars : List (String × List String))
    (hok : ∀ kv ∈ vars, (fetch kv.1).isOk) :
    fetchAll fetch cs vars = .ok (predefProcs fetch cs vars) := by
  induction vars with
  | nil => rfl
  | cons kv rest ih =>
    have h1 := hok kv (by simp)
    cases hf : fetch kv.1 with
    | error e =>
      rw [hf] at h1
      exact Bool.noConfusion h1
    | ok d =>
      unfold fetchAll
      rw [hf, ih (fun kv' h' => hok kv' (List.mem_cons_of_mem _ h'))]
      unfold predefProcs
      rw [List.map_cons]
      unfold fetched
      rw [hf]

theorem predefinedInit_ok (fetch : FetchFn α) (miss : α) (cs : Bool)
    (vars : List (String × List String))
    (hok : ∀ kv ∈ vars, (fetch kv.1).isOk) :
    predefinedInit fetch miss cs vars =
      .ok (dictInit (predefTable fetch cs vars) none miss) := by
  unfold predefinedInit predefTable
  rw [fetchAll_ok fetch cs vars hok]

theorem fetchAll_error (fetch : FetchFn α) (cs : Bool)
    (vars : List (String × List String)) (name : String) (v : List String)
    (e : String)
    (hmem : (name, v) ∈ vars)
    (hf : fetch name = .error e)
    (hothers : ∀ kv ∈ vars, kv.1 ≠ name → (fetch kv.1).isOk) :
    fetchAll fetch cs vars = .error e := by
  induction vars with
  | nil => cases hmem
  | cons kv rest ih =>
    by_cases hk : kv.1 = name
    · unfold fetchAll
      rw [hk, hf]
    · have h1 := hothers kv (by simp) hk
      cases hfk : fetch kv.1 with
      | error e' =>
        rw [hfk] at h1
        exact Bool.noConfusion h1
      | ok d =>
        have hmem' : (name, v) ∈ rest := by
          rcases List.mem_cons.1 hmem with h | h
          · have : kv.1 = name := by rw [← h]
            exact absurd this hk
          · exact h
        unfold fetchAll
        rw [hfk, ih hmem' (fun kv' h' hne => hothers kv' (List.mem_cons_of_mem _ h') hne)]

/-- C5: a `PredefinedDictionaryExtractor` over several fetched sources
builds the outer join of the processed source tables: its columns are
the sources' columns prefixed with their source names, a key present in
any one source yields a row, extraction of a present key returns each
source's cells with the cells of sources lacking the key filled by the
missing sentinel, and with `case_sensitive=False` every source's keys
are lowercased before joining. -/
theorem predefined_outer_join (fetch : FetchFn α) (miss : α) (cs : Bool)
    (vars : List (String × List String))
    (hok : ∀ kv ∈ vars, (fetch kv.1).isOk)
    (hwf : ∀ kv ∈ vars, (fetched fetch kv.1).WF)
    (hnodup : (predefTable fetch cs vars).cols.Nodup) :
    predefinedInit fetch miss cs vars =
      .ok (dictInit (predefTable fetch cs vars) none miss) ∧
    (predefTable fetch cs vars).cols =
      (predefProcs fetch cs vars).flatMap DTable.cols ∧
    (∀ c ∈ (predefTable fetch cs vars).cols, ∃ kv ∈ vars, ∃ c₀,
      c = kv.1 ++ "_" ++ c₀) ∧
    (∀ k, ((predefTable fetch cs vars).lookup k).isSome ↔
      ∃ p ∈ predefProcs fetch cs vars, k ∈ p.keys) ∧
    (∀ k r, (predefTable fetch cs vars).lookup k = some r →
      (dictInit (predefTable fetch cs vars) none miss).extract k =
        ⟨[(predefProcs fetch cs vars).flatMap (fun p =>
            match p.lookup k with
            | some rr => rr.map (fun c => Option.getD c miss)
            | none => List.replicate p.cols.length miss)],
          (predefTable fetch cs vars).cols⟩) ∧
    (cs = false → ∀ kv ∈ vars,
      (processSource cs kv.1 kv.2 (fetched fetch kv.1)).keys =
        (fetched fetch kv.1).keys.map String.toLower) := by
  have hpwf : ∀ p ∈ predefProcs fetch cs vars, p.WF := by
    intro p hp
    rcases List.mem_map.1 hp with ⟨kv, hkv, rfl⟩
    exact processSource_wf cs kv.1 kv.2 (hwf kv hkv)
  have htwf : (predefTable fetch cs vars).WF := concatOuter_wf _ hpwf
  refine ⟨predefinedInit_ok fetch miss cs vars hok, rfl, ?_, ?_, ?_, ?_⟩
  · intro c hc
    rcases List.mem_flatMap.1 hc with ⟨p, hp, hcp⟩
    rcases List.mem_map.1 hp with ⟨kv, hkv, rfl⟩
    rcases processSource_cols_prefixed _ _ _ _ _ hcp with ⟨c₀, rfl⟩
    exact ⟨kv, hkv, c₀, rfl⟩
  · intro k
    exact concatOuter_lookup_isSome _ k
  · intro k r hr
    have hk : k ∈ (predefProcs fetch cs vars).flatMap DTable.keys := by
      by_contra hknot
      rw [show predefTable fetch cs vars = concatOuter (predefProcs fetch cs vars) from rfl,
        concatOuter_lookup_of_not_mem _ _ hknot] at hr
      cases hr
    have hjr : r = joinedRow (predefProcs fetch cs vars) k := by
      have hsome := concatOuter_lookup_of_mem (predefProcs fetch cs vars) k hk
      rw [show predefTable fetch cs vars = concatOuter (predefProcs fetch cs vars) from rfl,
        hsome] at hr
      exact (Option.some_inj.1 hr).symm
    rw [dictExtract_hit _ miss k r hnodup htwf hr, hjr, joinedRow_map_getD]
  · intro hcs kv hkv
    subst hcs
    exact processSource_keys_lower kv.1 kv.2 (fetched fetch kv.1)

/-- C6: if fetching one named source fails while the others succeed, the
construction of a `PredefinedDictionaryExtractor` propagates the
resource error naming the missing source, and no extractor (hence no
empty or partial feature table) is built. -/
theorem predefined_fetch_failure (fetch : FetchFn α) (miss : α) (cs : Bool)
    (vars : List (String × List String)) (name : String) (v : List String)
    (e : String)
    (hname : ∀ k err, fetch k = .error err → err = k)
    (hmem : (name, v) ∈ vars)
    (hf : fetch name = .error e)
    (hothers : ∀ kv ∈ vars, kv.1 ≠ name → (fetch kv.1).isOk) :
    predefinedInit fetch miss cs vars = .error name ∧
    ∀ ext, predefinedInit fetch miss cs vars ≠ .ok ext := by
  have he : e = name := hname name e hf
  have hall : fetchAll fetch cs vars = .error e :=
    fetchAll_error fetch cs vars name v e hmem hf hothers
  constructor
  · unfold predefinedInit
    rw [hall, he]
  · intro ext hcontra
    unfold predefinedInit at hcontra
    rw [hall] at hcontra
    cases hcontra

theorem predefined_outer_join_witness :
    (∀ kv ∈ exVars, (exFetch kv.1).isOk) ∧
    (∀ kv ∈ exVars, (fetched exFetch kv.1).WF) ∧
    (predefTable exFetch true exVars).cols.Nodup ∧
    predefinedInit exFetch (9 : ℤ) true exVars =
      .ok (dictInit (predefTable exFetch true exVars) none 9) ∧
    (dictInit (predefTable exFetch true exVars) none (9 : ℤ)).extract "mary" =
      ⟨[[9, 9]], ["affect_V", "freq_F"]⟩ :=
  ⟨by decide, by decide, by decide,
   (predefined_outer_join exFetch (9 : ℤ) true exVars
     (by decide) (by decide) (by decide)).1,
   ((predefined_outer_join exFetch (9 : ℤ) true exVars
     (by decide) (by decide) (by decide)).2.2.2.2.1 "mary" [none, none]
       (by decide)).trans (by decide)⟩

theorem predefined_fetch_failure_witness :
    (("missing_dict", ([] : List String)) ∈ exVarsFail) ∧
    exFetchFail "missing_dict" = .error "missing_dict" ∧
    predefinedInit exFetchFail (9 : ℤ) true exVarsFail = .error "missing_dict" ∧
    ∀ ext, predefinedInit exFetchFail (9 : ℤ) true exVarsFail ≠ .ok ext := by
  have hname : ∀ k err, exFetchFail k = .error err → err = k := by
    intro k err h
    unfold exFetchFail at h
    by_cases hk : k = "good"
    · rw [if_pos hk] at h
      cases h
    · rw [if_neg hk] at h
      injection h with h'
      exact h'.symm
  have main := predefined_fetch_failure exFetchFail (9 : ℤ) true exVarsFail
    "missing_dict" [] "missing_dict" hname (by decide) rfl (by decide)
  exact ⟨by decide, rfl, main.1, main.2⟩

end Pliers
